import Mathlib

/-!
Verification of the MITRE ATT&CK version-comparison script
(`analyse_attack_markdown.py`) against its specification.

The script is a linear pipeline: load two JSON snapshots, index their
records by `id`, diff the id sets, classify modifications by comparing
the `modified` markers, group added/removed records by `type`, and render
a markdown report.  We embed each of those steps as an executable Lean
definition translated from the source and prove the spec's claims about
them.
-/

namespace AttackDiff

/-- A STIX record as the script sees it: a JSON mapping from which the
script reads the keys `id`, `type`, `name`, `description`, `modified`,
each of which may be absent (`none`). -/
structure Record where
  id : Option String
  type : Option String
  name : Option String
  description : Option String
  modified : Option String
deriving DecidableEq, Repr

/-- One step of building a Python dict: inserting key `k` overwrites an
existing entry in place (keeping its position) and otherwise appends. -/
def insertDict (d : List (String × Record)) (k : String) (v : Record) :
    List (String × Record) :=
  if d.any (fun p => p.1 == k) then
    d.map (fun p => if p.1 == k then (p.1, v) else p)
  else
    d ++ [(k, v)]

/-- The dict comprehension `{obj['id']: obj for obj in data['objects'] if 'id' in obj}`:
records lacking an `id` are skipped. -/
def indexObjs (objs : List Record) : List (String × Record) :=
  objs.foldl (fun d obj =>
    match obj.id with
    | none => d
    | some i => insertDict d i obj) []

/-- Lookup in the id→record dict. -/
def dictGet (d : List (String × Record)) (k : String) : Option Record :=
  (d.find? (fun p => p.1 == k)).map Prod.snd

/-- `set(objects.keys())`: the id set of a snapshot's index. -/
def idsOf (objs : List Record) : Finset String :=
  ((indexObjs objs).map Prod.fst).toFinset

/-- `new_ids = ids17 - ids16`. -/
def addedIds (objs1 objs2 : List Record) : Finset String :=
  idsOf objs2 \ idsOf objs1

/-- `removed_ids = ids16 - ids17`. -/
def removedIds (objs1 objs2 : List Record) : Finset String :=
  idsOf objs1 \ idsOf objs2

/-- `common_ids = ids16 & ids17`. -/
def commonIds (objs1 objs2 : List Record) : Finset String :=
  idsOf objs1 ∩ idsOf objs2

/-- `objects[id_].get('modified')`: the modification marker of the record
indexed under `i`, `none` when the field is absent. -/
def marker (idx : List (String × Record)) (i : String) : Option String :=
  (dictGet idx i).bind Record.modified

/-- The loop `for id_ in common_ids: if objects16[id_].get('modified') !=
objects17[id_].get('modified'): modified_ids.add(id_)`. -/
def modifiedIds (objs1 objs2 : List Record) : Finset String :=
  (commonIds objs1 objs2).filter
    (fun i => marker (indexObjs objs1) i ≠ marker (indexObjs objs2) i)

/-- C2: the diffed id sets partition as expected: `added` and `removed`
are disjoint, `added ∪ common` is exactly the id set of the `to`
snapshot, and `removed ∪ common` is exactly the id set of the `from`
snapshot. -/
theorem diff_sets_partition (objs1 objs2 : List Record) :
    addedIds objs1 objs2 ∩ removedIds objs1 objs2 = ∅ ∧
    addedIds objs1 objs2 ∪ commonIds objs1 objs2 = idsOf objs2 ∧
    removedIds objs1 objs2 ∪ commonIds objs1 objs2 = idsOf objs1 := by
  refine ⟨?_, ?_, ?_⟩ <;>
    · ext x
      simp only [addedIds, removedIds, commonIds, Finset.mem_inter,
        Finset.mem_union, Finset.mem_sdiff, Finset.not_mem_empty,
        iff_false, not_and]
      tauto

/-- C3: `modified` is a subset of `common`; every id in `modified` has
unequal `modified` markers between the two snapshots (opaque equality of
the raw marker values), and every id in `common` but not in `modified`
has equal markers. -/
theorem modified_characterisation (objs1 objs2 : List Record) :
    modifiedIds objs1 objs2 ⊆ commonIds objs1 objs2 ∧
    (∀ i ∈ modifiedIds objs1 objs2,
      marker (indexObjs objs1) i ≠ marker (indexObjs objs2) i) ∧
    (∀ i ∈ commonIds objs1 objs2, i ∉ modifiedIds objs1 objs2 →
      marker (indexObjs objs1) i = marker (indexObjs objs2) i) := by
  refine ⟨Finset.filter_subset _ _, ?_, ?_⟩
  · intro i hi
    exact (Finset.mem_filter.mp hi).2
  · intro i hi hnotin
    by_contra hne
    exact hnotin (Finset.mem_filter.mpr ⟨hi, hne⟩)

/-- The spec's worked example, `from` side: A(id 1, malware, t0) and
B(id 2, tool, t0). -/
def exFrom : List Record :=
  [⟨some "1", some "malware", some "A", none, some "t0"⟩,
   ⟨some "2", some "tool", some "B", none, some "t0"⟩]

/-- The spec's worked example, `to` side: A(id 1, malware, t1) and
C(id 3, malware, t0). -/
def exTo : List Record :=
  [⟨some "1", some "malware", some "A", none, some "t1"⟩,
   ⟨some "3", some "malware", some "C", none, some "t0"⟩]

/-- Witness for C3: on the worked example, id "1" is in `modified` and
its markers indeed differ. -/
theorem modified_characterisation_witness :
    "1" ∈ modifiedIds exFrom exTo ∧
    marker (indexObjs exFrom) "1" ≠ marker (indexObjs exTo) "1" :=
  ⟨by decide, (modified_characterisation exFrom exTo).2.1 "1" (by decide)⟩

/-! ### `clean_text` -/

/-- Python `text.replace(c, r)` for a single-character pattern `c`:
every occurrence of `c` is replaced by the string `r`. -/
def subst (c : Char) (r : List Char) : List Char → List Char
  | [] => []
  | x :: xs => (if x = c then r else [x]) ++ subst c r xs

/-- The `replacements` table of `clean_text`, in the source's (dict
insertion) order. -/
def replacements : List (Char × List Char) :=
  [('’', ['\'']), ('‘', ['\'']), ('“', ['"']),
   ('”', ['"']), ('–', ['-']), ('—', ['-', '-']),
   ('…', ['.', '.', '.']), ('æ', ['a', 'e']),
   ('Æ', ['A', 'E']), ('ü', ['u']), ('Ü', ['U']),
   ('ö', ['o']), ('Ö', ['O']), ('ä', ['a']),
   ('Ä', ['A']), ('ß', ['s', 's']), ('ñ', ['n']),
   ('Ñ', ['N'])]

/-- The loop `for unicode_char, ascii_char in replacements.items():
text = text.replace(unicode_char, ascii_char)`. -/
def applyRepls (ps : List (Char × List Char)) (l : List Char) : List Char :=
  ps.foldl (fun acc p => subst p.1 p.2 acc) l

/-- `clean_text`: returns falsy input unchanged, otherwise applies the
replacement table in order. -/
def clean_text (s : String) : String :=
  if s.data.isEmpty then s else ⟨applyRepls replacements s.data⟩

theorem mem_subst {d c : Char} {r l : List Char} (h : d ∈ subst c r l) :
    d ∈ r ∨ d ∈ l := by
  induction l with
  | nil => simp [subst] at h
  | cons x xs ih =>
    simp only [subst, List.mem_append] at h
    rcases h with h | h
    · by_cases hx : x = c
      · simp [hx] at h
        exact Or.inl h
      · simp [hx] at h
        exact Or.inr (by simp [h])
    · rcases ih h with h' | h'
      · exact Or.inl h'
      · exact Or.inr (List.mem_cons_of_mem _ h')

theorem not_mem_subst_self {c : Char} {r l : List Char} (hc : c ∉ r) :
    c ∉ subst c r l := by
  induction l with
  | nil => simp [subst]
  | cons x xs ih =>
    simp only [subst, List.mem_append]
    rintro (h | h)
    · by_cases hx : x = c
      · simp [hx] at h
        exact hc h
      · simp [hx] at h
        exact hx h.symm
    · exact ih h

theorem subst_eq_of_not_mem {c : Char} {r : List Char} {l : List Char}
    (h : c ∉ l) : subst c r l = l := by
  induction l with
  | nil => rfl
  | cons x xs ih =>
    simp only [List.mem_cons, not_or] at h
    simp [subst, Ne.symm h.1, ih h.2]

theorem subst_ne_nil {c : Char} {r l : List Char} (hl : l ≠ [])
    (hr : r ≠ []) : subst c r l ≠ [] := by
  cases l with
  | nil => exact absurd rfl hl
  | cons x xs =>
    simp only [subst]
    intro h
    rcases List.append_eq_nil.mp h with ⟨h1, _⟩
    by_cases hx : x = c
    · rw [if_pos hx] at h1
      exact hr h1
    · rw [if_neg hx] at h1
      cases h1

/-- Once a source character has been eliminated, the remaining
replacement steps never reintroduce it (their outputs avoid it). -/
theorem applyRepls_not_mem {ps : List (Char × List Char)} {l : List Char}
    {c : Char} (hl : c ∉ l) (hr : ∀ p ∈ ps, c ∉ p.2) :
    c ∉ applyRepls ps l := by
  induction ps generalizing l with
  | nil => exact hl
  | cons p ps ih =>
    refine ih ?_ (fun q hq => hr q (List.mem_cons_of_mem _ hq))
    intro hmem
    rcases mem_subst hmem with h | h
    · exact hr p (List.mem_cons_self _ _) h
    · exact hl h

/-- Each source character of the table is absent from the final output of
one full pass, because its own step removes it and no step reintroduces it. -/
theorem applyRepls_removes {ps : List (Char × List Char)} {l : List Char}
    {c : Char} {r : List Char} (hmem : (c, r) ∈ ps)
    (hr : ∀ p ∈ ps, c ∉ p.2) : c ∉ applyRepls ps l := by
  induction ps generalizing l with
  | nil => cases hmem
  | cons p ps ih =>
    show c ∉ applyRepls ps (subst p.1 p.2 l)
    rcases List.mem_cons.mp hmem with h | h
    · rw [← h]
      exact applyRepls_not_mem
        (not_mem_subst_self (hr (c, r) hmem))
        (fun q hq => hr q (List.mem_cons_of_mem _ hq))
    · exact ih h (fun q hq => hr q (List.mem_cons_of_mem _ hq))

theorem applyRepls_eq_of_not_mem {ps : List (Char × List Char)}
    {l : List Char} (h : ∀ p ∈ ps, p.1 ∉ l) : applyRepls ps l = l := by
  induction ps with
  | nil => rfl
  | cons p ps ih =>
    simp only [applyRepls, List.foldl_cons]
    rw [subst_eq_of_not_mem (h p (List.mem_cons_self _ _))]
    exact ih (fun q hq => h q (List.mem_cons_of_mem _ hq))

theorem applyRepls_ne_nil {ps : List (Char × List Char)} {l : List Char}
    (hl : l ≠ []) (hr : ∀ p ∈ ps, p.2 ≠ []) : applyRepls ps l ≠ [] := by
  induction ps generalizing l with
  | nil => exact hl
  | cons p ps ih =>
    exact ih (subst_ne_nil hl (hr p (List.mem_cons_self _ _)))
      (fun q hq => hr q (List.mem_cons_of_mem _ hq))

/-- No replacement's output contains any replacement's source character
(all outputs are ASCII, all sources are not). -/
theorem replacements_ascii_outputs :
    ∀ p ∈ replacements, ∀ q ∈ replacements, p.1 ∉ q.2 := by decide

/-- Evaluating `clean_text` on a nonempty character list. -/
theorem clean_text_mk {l : List Char} (h : l ≠ []) :
    clean_text ⟨l⟩ = ⟨applyRepls replacements l⟩ := by
  simp only [clean_text]
  rw [if_neg]
  show ¬ l.isEmpty = true
  simp [List.isEmpty_iff, h]

/-- C8: `clean_text` is idempotent: applying it twice yields the same
result as applying it once. -/
theorem clean_text_idempotent (s : String) :
    clean_text (clean_text s) = clean_text s := by
  by_cases h : s.data.isEmpty
  · simp [clean_text, h]
  · have hd : s.data ≠ [] := by simpa [List.isEmpty_iff] using h
    have h1 : clean_text s = ⟨applyRepls replacements s.data⟩ := by
      simp only [clean_text]
      rw [if_neg (by simp [h])]
    have hne : applyRepls replacements s.data ≠ [] :=
      applyRepls_ne_nil hd (by decide)
    have hfix : applyRepls replacements (applyRepls replacements s.data) =
        applyRepls replacements s.data := by
      refine applyRepls_eq_of_not_mem ?_
      intro p hp
      exact applyRepls_removes (c := p.1) (r := p.2) (by rwa [Prod.mk.eta])
        (fun q hq => replacements_ascii_outputs _ hp _ hq)
    rw [h1, clean_text_mk hne]
    exact congrArg String.mk hfix

/-! ### `extract_version` and the output filename -/

/-- Try to match the regex `\d+\.\d+` anchored at the start of `l`.
Since `\d+` cannot consume the dot, greedy matching with backtracking
reduces to: a maximal nonempty digit run, a literal `.`, and a second
maximal nonempty digit run. -/
def matchVersionAt (l : List Char) : Option (List Char) :=
  let s1 := l.span Char.isDigit
  if s1.1 = [] then none
  else
    match s1.2 with
    | '.' :: r2 =>
      let s2 := r2.span Char.isDigit
      if s2.1 = [] then none else some (s1.1 ++ '.' :: s2.1)
    | _ => none

/-- `re.search(r'(\d+\.\d+)', filename)`: leftmost match of the dotted
digit pattern, scanning start positions left to right. -/
def searchVersion : List Char → Option (List Char)
  | [] => none
  | c :: rest =>
    match matchVersionAt (c :: rest) with
    | some m => some m
    | none => searchVersion rest

/-- `extract_version`: the matched group when the pattern occurs,
otherwise the literal `"unknown"`. -/
def extract_version (filename : String) : String :=
  match searchVersion filename.data with
  | some m => ⟨m⟩
  | none => "unknown"

/-- The report filename
`f'mitre_attack_changes_{version1}_to_{version2}.md'`. -/
def output_filename (version1 version2 : String) : String :=
  "mitre_attack_changes_" ++ version1 ++ "_to_" ++ version2 ++ ".md"

/-- Whether `p` begins the list `l`. -/
def begins : List Char → List Char → Bool
  | [], _ => true
  | _ :: _, [] => false
  | p :: ps, x :: xs => p == x && begins ps xs

/-- The number of positions of `l` at which the pattern `pat` occurs. -/
def countOcc (pat l : List Char) : Nat :=
  (l.tails.filter (fun t => begins pat t)).length

/-- C9: version-label extraction returns the first dotted pair of digits
("16.1" and "17.0" for the two example filenames), returns the literal
"unknown" when no dotted-digit pattern exists, and the report filename
embeds each extracted label exactly once. -/
theorem extract_version_spec :
    extract_version "enterprise-attack-16.1.json" = "16.1" ∧
    extract_version "enterprise-attack-17.0.json" = "17.0" ∧
    extract_version "enterprise-attack.json" = "unknown" ∧
    countOcc "16.1".data
      (output_filename (extract_version "enterprise-attack-16.1.json")
        (extract_version "enterprise-attack-17.0.json")).data = 1 ∧
    countOcc "17.0".data
      (output_filename (extract_version "enterprise-attack-16.1.json")
        (extract_version "enterprise-attack-17.0.json")).data = 1 := by
  decide

/-! ### Description cleaning -/

/-- Python `desc.replace('\n', ' ')`. -/
def replaceNewlines (l : List Char) : List Char :=
  l.map (fun c => if c = '\n' then ' ' else c)

/-- Try to match the regex `\[([^\]]+)\]\([^\)]+\)` anchored at the start
of `l`; on success, return the captured link text and the remainder after
the match.  The negated character classes make greedy matching
deterministic: the text runs to the first `]` and the url to the first
`)`. -/
def matchLinkAt (l : List Char) : Option (List Char × List Char) :=
  match l with
  | '[' :: r =>
    let s1 := r.span (fun c => !(c == ']'))
    if s1.1 = [] then none
    else
      match s1.2 with
      | ']' :: '(' :: r2 =>
        let s2 := r2.span (fun c => !(c == ')'))
        if s2.1 = [] then none
        else
          match s2.2 with
          | ')' :: r3 => some (s1.1, r3)
          | _ => none
      | _ => none
  | _ => none

/-- Fuelled scan for `re.sub(r'\[([^\]]+)\]\([^\)]+\)', r'\1', desc)`:
leftmost non-overlapping matches are replaced by their captured text.
The fuel only bounds recursion depth; with fuel ≥ length the scan
terminates on its own. -/
def stripLinksFuel : Nat → List Char → List Char
  | 0, l => l
  | _ + 1, [] => []
  | fuel + 1, c :: rest =>
    match matchLinkAt (c :: rest) with
    | some (txt, r3) => txt ++ stripLinksFuel fuel r3
    | none => c :: stripLinksFuel fuel rest

/-- The link-removal substitution. -/
def stripLinks (l : List Char) : List Char :=
  stripLinksFuel l.length l

/-- Python whitespace, as recognised by `str.split()`. -/
def isPySpace (c : Char) : Bool :=
  c == ' ' || c == '\t' || c == '\n' || c == '\r' || c == '\x0b' || c == '\x0c'

/-- `desc.split()`: split on runs of whitespace, discarding empty pieces. -/
def splitWsAux : List Char → List Char → List (List Char)
  | [], acc => if acc = [] then [] else [acc.reverse]
  | c :: rest, acc =>
    if isPySpace c then
      if acc = [] then splitWsAux rest []
      else acc.reverse :: splitWsAux rest []
    else splitWsAux rest (c :: acc)

/-- `' '.join(desc.split())`: collapse whitespace runs to single spaces
and trim the ends. -/
def collapseWs (l : List Char) : List Char :=
  List.intercalate [' '] (splitWsAux l [])

/-- Description cleaning for every category except technique
(`attack-pattern`): `clean_text`, newline replacement, markdown link
removal, whitespace collapsing. -/
def cleanDescNonTech (s : String) : String :=
  ⟨collapseWs (stripLinks (replaceNewlines (clean_text s).data))⟩

/-- Description cleaning for the technique (`attack-pattern`) category:
same pipeline but without the link-removal substitution. -/
def cleanDescTech (s : String) : String :=
  ⟨collapseWs (replaceNewlines (clean_text s).data)⟩

/-- C7: non-technique description cleaning rewrites `[text](url)` to
`text` and collapses newlines and whitespace runs — the spec's example
cleans to "See here for more" — whereas the technique category performs
the same cleaning without the link rewrite, leaving the link intact. -/
theorem clean_description_spec :
    cleanDescNonTech "See [here](http://x) for more" = "See here for more" ∧
    cleanDescTech "See [here](http://x) for more" =
      "See [here](http://x) for more" ∧
    cleanDescNonTech "a\n  b" = "a b" ∧
    cleanDescTech "a\n  b" = "a b" := by
  decide

/-! ### The per-type counting pass and the analysis pipeline -/

/-- Uncaught exceptions the analysis can raise: `KeyError: 'type'` from
`obj['type']` on a record lacking the key, and `ZeroDivisionError` from
the modification-percentage division. -/
inductive RunError where
  | keyErrorType
  | zeroDivision
deriving DecidableEq, Repr

deriving instance DecidableEq for Except

/-- `types[t] += 1` on a `defaultdict(int)`. -/
def bumpType (d : List (String × Nat)) (t : String) : List (String × Nat) :=
  if d.any (fun p => p.1 == t) then
    d.map (fun p => if p.1 == t then (p.1, p.2 + 1) else p)
  else
    d ++ [(t, 1)]

/-- The loop `for obj in data['objects']: types[obj['type']] += 1`:
`obj['type']` raises `KeyError` when the key is absent, aborting the run. -/
def countTypes (objs : List Record) : Except RunError (List (String × Nat)) :=
  objs.foldlM (fun d obj =>
    match obj.type with
    | none => Except.error RunError.keyErrorType
    | some t => Except.ok (bumpType d t)) []

/-- The numeric content of the report that the script derives before
formatting. -/
structure DiffReport where
  total1 : Nat
  total2 : Nat
  addedCount : Nat
  removedCount : Nat
  modifiedCount : Nat
  pctModified : Nat
  outputFile : String
deriving DecidableEq, Repr

/-- The analysis pipeline of `analyse_attack_versions_markdown`, up to
the derived numbers of the report: extract versions, index by id, count
by type (which raises on a record lacking `type`), diff the id sets,
classify modifications, and compute `len(modified_ids)*100 //
len(common_ids)` — a plain floor division with no guard, which raises
`ZeroDivisionError` when `common_ids` is empty. -/
def analyse (file1 file2 : String) (objs1 objs2 : List Record) :
    Except RunError DiffReport := do
  let version1 := extract_version file1
  let version2 := extract_version file2
  let _ ← countTypes objs1
  let _ ← countTypes objs2
  let pct ←
    if (commonIds objs1 objs2).card = 0 then
      Except.error RunError.zeroDivision
    else
      Except.ok ((modifiedIds objs1 objs2).card * 100 /
        (commonIds objs1 objs2).card)
  Except.ok
    { total1 := objs1.length
      total2 := objs2.length
      addedCount := (addedIds objs1 objs2).card
      removedCount := (removedIds objs1 objs2).card
      modifiedCount := (modifiedIds objs1 objs2).card
      pctModified := pct
      outputFile := output_filename version1 version2 }

/-- A snapshot whose single record shares no id with `exOther`. -/
def exOnlyA : List Record :=
  [⟨some "a", some "malware", some "A", none, some "t0"⟩]

/-- A snapshot whose single record shares no id with `exOnlyA`. -/
def exOther : List Record :=
  [⟨some "b", some "malware", some "B", none, some "t0"⟩]

/-- C1: the modified-percentage computation is an unguarded floor
division by `len(common_ids)`: on a pair of snapshots with no shared
identifiers `common` is empty and the run raises `ZeroDivisionError`
instead of returning 0. -/
theorem percentage_division_by_zero :
    commonIds exOnlyA exOther = ∅ ∧
    analyse "from.json" "to.json" exOnlyA exOther =
      Except.error RunError.zeroDivision := by
  decide

/-- A record lacking the `type` key. -/
def recNoType : Record := ⟨some "z", none, none, none, none⟩

/-- A record lacking the `id` key. -/
def recNoId : Record := ⟨none, some "malware", none, none, none⟩

/-- C10: a record lacking `type` makes the counting pass raise an
uncaught `KeyError`, aborting the run before any report is produced,
while a record lacking `id` is tolerated: it is skipped by the indexing
comprehension yet still counted by type. -/
theorem missing_type_fatal_missing_id_tolerated :
    countTypes [recNoType] = Except.error RunError.keyErrorType ∧
    analyse "from.json" "to.json" [recNoType] exOther =
      Except.error RunError.keyErrorType ∧
    indexObjs [recNoId] = [] ∧
    countTypes [recNoId] = Except.ok [("malware", 1)] := by
  decide

/-! ### Command-line handling -/

/-- The `__main__` block: `argc` is `len(sys.argv)` (program name plus
arguments), and the two booleans state whether each given path exists.
The result is `some code` when the program exits early with `sys.exit`,
`none` when it proceeds to the analysis. -/
def mainExit (argc : Nat) (file1Exists file2Exists : Bool) : Option Nat :=
  if argc ≠ 3 then some 1
  else if !file1Exists then some 1
  else if !file2Exists then some 1
  else none

/-- Counterexample for C6: the wrong-argument-count exit and the
missing-path exits all use the same status 1, so the missing-path status
is not distinct from the wrong-argument-count status. -/
theorem exit_statuses_not_distinct :
    mainExit 2 true true = some 1 ∧
    mainExit 3 false true = some 1 ∧
    mainExit 3 true false = some 1 ∧
    mainExit 3 false true = mainExit 2 true true := by
  decide

/-- C6 (amended): a wrong argument count exits with status 1 before the
existence checks, a missing path for either argument exits with the same
non-zero status 1, and with the right count and both paths present the
program proceeds. -/
theorem exit_statuses (argc : Nat) (f1 f2 : Bool) :
    (argc ≠ 3 → mainExit argc f1 f2 = some 1) ∧
    (argc = 3 → f1 = false ∨ f2 = false → mainExit argc f1 f2 = some 1) ∧
    mainExit 3 true true = none := by
  refine ⟨?_, ?_, rfl⟩
  · intro h
    simp [mainExit, h]
  · rintro rfl (rfl | rfl)
    · rfl
    · cases f1 <;> rfl

/-- Witness for C6 (amended): with one argument missing the exit status
is 1, and with a missing first path it is also 1. -/
theorem exit_statuses_witness :
    mainExit 2 true true = some 1 ∧ mainExit 3 false true = some 1 :=
  ⟨(exit_statuses 2 true true).1 (by decide),
   (exit_statuses 3 false true).2.1 rfl (Or.inl rfl)⟩

/-! ### Grouping added/removed records by type -/

/-- `group[t].append(r)` on a `defaultdict(list)`: append to an existing
type's list in place, otherwise add the type with a singleton list. -/
def groupAppend (g : List (String × List Record)) (t : String) (r : Record) :
    List (String × List Record) :=
  if g.any (fun p => p.1 == t) then
    g.map (fun p => if p.1 == t then (p.1, p.2 ++ [r]) else p)
  else
    g ++ [(t, [r])]

/-- The loop `for id_ in ids: obj = objects[id_];
group[obj['type']].append(obj)`.  In the program `ids` is a Python set,
so `order` is its iteration order — an unspecified enumeration of the id
set, not the source-list order.  The `none` branches model lookups that
cannot occur on inputs that reached this loop: every id comes from the
dict's keys, and a record lacking `type` already aborted the counting
pass. -/
def groupByType (idx : List (String × Record)) (order : List String) :
    List (String × List Record) :=
  order.foldl (fun g i =>
    match dictGet idx i with
    | none => g
    | some obj =>
      match obj.type with
      | none => g
      | some t => groupAppend g t obj) []

/-- The list stored under type `t` in a grouping (`[]` when absent, as
for a `defaultdict`). -/
def groupGet (g : List (String × List Record)) (t : String) : List Record :=
  match g.find? (fun p => p.1 == t) with
  | some p => p.2
  | none => []

/-- The records of the enumeration `order` that resolve in `idx` to a
record of type `t`, in enumeration order. -/
def groupSpecList (idx : List (String × Record)) (order : List String)
    (t : String) : List Record :=
  order.filterMap (fun i =>
    match dictGet idx i with
    | none => none
    | some obj =>
      match obj.type with
      | none => none
      | some u => if u == t then some obj else none)

theorem groupGet_cons_same {p : String × List Record}
    {g : List (String × List Record)} {t : String} (h : p.1 = t) :
    groupGet (p :: g) t = p.2 := by
  unfold groupGet
  rw [List.find?_cons_of_pos _ (by simp [h])]

theorem groupGet_cons_other {p : String × List Record}
    {g : List (String × List Record)} {t : String} (h : ¬ p.1 = t) :
    groupGet (p :: g) t = groupGet g t := by
  unfold groupGet
  rw [List.find?_cons_of_neg _ (by simp [h])]

theorem groupAppend_cons_same {p : String × List Record}
    {g : List (String × List Record)} {t : String} {r : Record}
    (hp : p.1 = t) :
    groupAppend (p :: g) t r = (p.1, p.2 ++ [r]) ::
      g.map (fun q => if q.1 == t then (q.1, q.2 ++ [r]) else q) := by
  unfold groupAppend
  rw [if_pos (by simp [List.any_cons, hp]), List.map_cons, if_pos (by simp [hp])]

theorem groupAppend_cons_other {p : String × List Record}
    {g : List (String × List Record)} {t : String} {r : Record}
    (hp : ¬ p.1 = t) :
    groupAppend (p :: g) t r = p :: groupAppend g t r := by
  unfold groupAppend
  by_cases hg : g.any (fun q => q.1 == t)
  · rw [if_pos (by simp [List.any_cons, hg]), if_pos hg, List.map_cons,
      if_neg (by simp [hp])]
  · rw [if_neg, if_neg hg, List.cons_append]
    simp only [List.any_cons, Bool.or_eq_true, not_or]
    exact ⟨by simp [hp], hg⟩

theorem groupGet_map_other {g : List (String × List Record)} {t u : String}
    {r : Record} (h : ¬ t = u) :
    groupGet (g.map (fun q => if q.1 == u then (q.1, q.2 ++ [r]) else q)) t =
      groupGet g t := by
  induction g with
  | nil => rfl
  | cons p g ih =>
    rw [List.map_cons]
    by_cases hq : p.1 = u
    · have hpt : ¬ p.1 = t := fun hh => h (hh ▸ hq)
      rw [if_pos (by simp [hq]),
        groupGet_cons_other (p := (p.1, p.2 ++ [r])) hpt,
        groupGet_cons_other hpt, ih]
    · rw [if_neg (by simp [hq])]
      by_cases hpt : p.1 = t
      · rw [groupGet_cons_same hpt, groupGet_cons_same hpt]
      · rw [groupGet_cons_other hpt, groupGet_cons_other hpt, ih]

theorem groupGet_append_same (g : List (String × List Record)) (t : String)
    (r : Record) : groupGet (groupAppend g t r) t = groupGet g t ++ [r] := by
  induction g with
  | nil =>
    rw [show groupAppend [] t r = [(t, [r])] from rfl, groupGet_cons_same rfl]
    rfl
  | cons p g ih =>
    by_cases hp : p.1 = t
    · rw [groupAppend_cons_same hp,
        groupGet_cons_same (p := (p.1, p.2 ++ [r])) hp,
        groupGet_cons_same hp]
    · rw [groupAppend_cons_other hp, groupGet_cons_other hp,
        groupGet_cons_other hp, ih]

theorem groupGet_append_other (g : List (String × List Record))
    {t u : String} (r : Record) (h : t ≠ u) :
    groupGet (groupAppend g u r) t = groupGet g t := by
  induction g with
  | nil =>
    rw [show groupAppend [] u r = [(u, [r])] from rfl,
      groupGet_cons_other (fun hh => h hh.symm)]
  | cons p g ih =>
    by_cases hp : p.1 = u
    · have hpt : ¬ p.1 = t := fun hh => h (hh ▸ hp)
      rw [groupAppend_cons_same hp,
        groupGet_cons_other (p := (p.1, p.2 ++ [r])) hpt,
        groupGet_cons_other hpt, groupGet_map_other h]
    · rw [groupAppend_cons_other hp]
      by_cases hpt : p.1 = t
      · rw [groupGet_cons_same hpt, groupGet_cons_same hpt]
      · rw [groupGet_cons_other hpt, groupGet_cons_other hpt, ih]

theorem groupByType_foldl (idx : List (String × Record))
    (order : List String) (t : String) :
    ∀ g : List (String × List Record),
      groupGet (order.foldl (fun g i =>
        match dictGet idx i with
        | none => g
        | some obj =>
          match obj.type with
          | none => g
          | some u => groupAppend g u obj) g) t =
      groupGet g t ++ groupSpecList idx order t := by
  induction order with
  | nil => intro g; simp [groupSpecList]
  | cons i order ih =>
    intro g
    rw [List.foldl_cons]
    cases hget : dictGet idx i with
    | none =>
      simp only [hget, ih, groupSpecList, List.filterMap_cons]
    | some obj =>
      cases htype : obj.type with
      | none =>
        simp only [hget, htype, ih, groupSpecList, List.filterMap_cons]
      | some u =>
        by_cases hu : u = t
        · subst hu
          simp only [hget, htype, ih, groupSpecList, List.filterMap_cons,
            beq_self_eq_true, if_true, groupGet_append_same,
            List.append_assoc, List.singleton_append]
        · have hne : (u == t) = false := by simpa using hu
          simp only [hget, htype, ih, groupSpecList, List.filterMap_cons,
            hne, if_false, Bool.false_eq_true,
            groupGet_append_other g obj (Ne.symm hu)]

/-- C4 (amended): for every index and every enumeration `order` of the
id set, the list grouped under type `t` consists of exactly the records
of `order` resolving to type `t`, in enumeration order — the order in
which Python iterates the id set, which is unspecified, not the source
snapshot's list order. -/
theorem groupByType_order (idx : List (String × Record))
    (order : List String) (t : String) :
    groupGet (groupByType idx order) t = groupSpecList idx order t := by
  have h := groupByType_foldl idx order t []
  simpa [groupByType, groupGet] using h

/-- First added record of the C4 counterexample: position 0 in the `to`
snapshot's object list. -/
def recX : Record := ⟨some "idx0", some "malware", some "X", none, some "t0"⟩

/-- Second added record of the C4 counterexample: position 1 in the `to`
snapshot's object list. -/
def recY : Record := ⟨some "idy0", some "malware", some "Y", none, some "t0"⟩

/-- The order the claim asserts: added records of type `t` in the order
of their original positions in the source snapshot's object list. -/
def sourceOrderAdded (objs1 objs2 : List Record) (t : String) : List Record :=
  objs2.filter (fun r =>
    r.type == some t &&
      match r.id with
      | some i => decide (i ∈ addedIds objs1 objs2)
      | none => false)

/-- Counterexample for C4: with `from` empty and `to` = [X, Y] (both of
type malware), the reversed enumeration ["idy0", "idx0"] is a valid
iteration order of the added-id set — Python set iteration order is
unspecified — and grouping under it lists [Y, X], not the source order
[X, Y]. -/
theorem group_order_not_source_order :
    ["idy0", "idx0"].Nodup ∧
    (["idy0", "idx0"] : List String).toFinset = addedIds [] [recX, recY] ∧
    groupGet (groupByType (indexObjs [recX, recY]) ["idy0", "idx0"])
      "malware" = [recY, recX] ∧
    sourceOrderAdded [] [recX, recY] "malware" = [recX, recY] ∧
    ([recY, recX] : List Record) ≠ [recX, recY] := by
  decide

/-! ### Treatment of absent `modified` markers -/

/-- C5 (amended): for an id in `common`, a `modified` marker absent on
exactly one side compares unequal to the present one, so the id is
classified as modified; but when the marker is absent from both records
the two `.get` calls both return the default and compare equal, so the
id is not classified as modified. -/
theorem absent_marker_classification (objs1 objs2 : List Record)
    (i : String) (hi : i ∈ commonIds objs1 objs2) :
    (marker (indexObjs objs1) i = none → marker (indexObjs objs2) i ≠ none →
      i ∈ modifiedIds objs1 objs2) ∧
    (marker (indexObjs objs1) i ≠ none → marker (indexObjs objs2) i = none →
      i ∈ modifiedIds objs1 objs2) ∧
    (marker (indexObjs objs1) i = none → marker (indexObjs objs2) i = none →
      i ∉ modifiedIds objs1 objs2) := by
  refine ⟨?_, ?_, ?_⟩
  · intro h1 h2
    exact Finset.mem_filter.mpr ⟨hi, by rw [h1]; exact fun h => h2 h.symm⟩
  · intro h1 h2
    exact Finset.mem_filter.mpr ⟨hi, by rw [h2]; exact h1⟩
  · intro h1 h2 hmem
    exact (Finset.mem_filter.mp hmem).2 (h1.trans h2.symm)

/-- The `from` snapshot of the C5 example: record "p" has no `modified`
field. -/
def exNoMarkFrom : List Record := [⟨some "p", some "tool", none, none, none⟩]

/-- The `to` snapshot of the C5 example: record "p" carries a marker. -/
def exMarkTo : List Record := [⟨some "p", some "tool", none, none, some "t1"⟩]

/-- Witness for C5 (amended): a marker absent on one side only makes the
id modified. -/
theorem absent_marker_classification_witness :
    "p" ∈ commonIds exNoMarkFrom exMarkTo ∧
    "p" ∈ modifiedIds exNoMarkFrom exMarkTo :=
  ⟨by decide,
   (absent_marker_classification exNoMarkFrom exMarkTo "p" (by decide)).1
     (by decide) (by decide)⟩

/-- A snapshot whose record "q" lacks the `modified` field; used on both
sides of the C5 counterexample. -/
def exNoMarkBoth : List Record := [⟨some "q", some "tool", none, none, none⟩]

/-- Counterexample for C5: with the marker absent from both records of a
common id, the id is NOT classified as modified — both `.get` calls
return the default and compare equal — contradicting the claim that
absence is unequal-by-default even when absent from both. -/
theorem absent_both_not_modified :
    "q" ∈ commonIds exNoMarkBoth exNoMarkBoth ∧
    "q" ∉ modifiedIds exNoMarkBoth exNoMarkBoth := by
  decide

end AttackDiff
